import Mathlib

/-!
# Verification of the OCR-Receipts extraction and reconciliation core

Shallow embedding of the receipt-processing pipeline of the repository
(`scripts/content_processor/process_raw_content.py`,
`scripts/content_processor/process_extracted_content.py`,
`scripts/content_detector/process_raw_content.py`,
`scripts/content_detector/process_extracted_content.py`,
`scripts/content_detector/misc.py`).

Modelling conventions:
* Python strings are `List Char` (`Str`); `str.split`, `in`, `str.replace`
  are embedded as executable list functions below.
* Python numbers are exact rationals `ℚ`; `round(x, 2)` is round-half-even
  to two decimal places (`roundTo2`), Python's rounding rule on the ideal
  (representation-error-free) value.
* Code that can raise returns `Except PyErr _`; Python's `IndexError`,
  `KeyError` and `AttributeError` (calling `.groups()` on a failed match,
  i.e. on `None`) are the error values.
* Interactive `input()` answers are supplied by explicit oracle arguments;
  `while True:` prompt loops take the (finite) list of answers the operator
  gives, returning `none` when the list is exhausted (the source would
  still be blocked waiting for input at that point).
-/

abbrev Str := List Char

inductive PyErr where
  | indexError
  | keyError (k : String)
  | attributeError
  deriving DecidableEq, Repr

/-- Round-half-even to an integer, Python's `round(y)` on an exact value. -/
def rhe (y : ℚ) : ℤ :=
  let n := ⌊y⌋
  let r := y - n
  if r < 1/2 then n
  else if 1/2 < r then n + 1
  else if n % 2 = 0 then n else n + 1

/-- Python's `round(x, 2)` on an exact rational value. -/
def roundTo2 (x : ℚ) : ℚ := (rhe (100 * x) : ℚ) / 100

/-- Embedding of `'\n'.split`-style splitting: Python `text.split('\n')`
(`"".split('\n') == [""]`, separators produce empty pieces). -/
def pySplit (sep : Char) : Str → List Str
  | [] => [[]]
  | c :: rest =>
    let r := pySplit sep rest
    if c = sep then
      [] :: r
    else
      match r with
      | [] => [[c]]
      | piece :: pieces => (c :: piece) :: pieces

/-- Python `needle in haystack` for strings (substring containment). -/
def hasSubstrL (needle : Str) : Str → Bool
  | [] => needle.isEmpty
  | c :: rest => needle.isPrefixOf (c :: rest) || hasSubstrL needle rest

/-- Embedding of `'OPUST' in line`. -/
def hasOpust (line : Str) : Bool := hasSubstrL "OPUST".toList line

/-- Embedding of `text_split_new[-1] += [line, text_split[i + 1]]` on a non-empty list:
extend the last emitted group by the two discount rows. -/
def appendToLast : List (List Str) → Str → Str → List (List Str)
  | [], _, _ => []
  | [g], x, y => [g ++ [x, y]]
  | g :: g2 :: rest, x, y => g :: appendToLast (g2 :: rest) x y

/-- The scanning loop of `get_split_text` (identical in
`content_processor/process_raw_content.py` and
`content_detector/process_raw_content.py`).  A line containing `OPUST` is
appended, together with the following line, to the previously emitted
group; `text_split_new[-1]` on an empty result list and `text_split[i+1]`
past the end both raise `IndexError` (in that order, per CPython's
evaluation order for `a[-1] += [line, b[i+1]]`). -/
def splitLoop : List Str → List (List Str) → Except PyErr (List (List Str))
  | [], acc => .ok acc
  | line :: rest, acc =>
    if hasOpust line then
      match acc with
      | [] => .error .indexError
      | _ :: _ =>
        match rest with
        | [] => .error .indexError
        | nxt :: rest2 => splitLoop rest2 (appendToLast acc line nxt)
    else
      splitLoop rest (acc ++ [[line]])

/-- Embedding of `get_split_text`: split on newlines, drop empty lines, then merge each
discount-marker line and its successor into the preceding group. -/
def get_split_text (text : Str) : Except PyErr (List (List Str)) :=
  splitLoop ((pySplit '\n' text).filter (fun l => l ≠ [])) []

/-! ## Text normalization (`replace_invalid_chars`)

`content_processor/process_raw_content.py` lines 32-55 and
`content_detector/process_raw_content.py` lines 30-53.  Every entry of the
substitution table is a single character, so Python's `str.replace` is a
per-character map. -/

/-- Embedding of `text.replace(old, new)` for single-character `old`/`new`. -/
def pyReplaceChar (t : Str) (old new : Char) : Str :=
  t.map (fun c => if c = old then new else c)

/-- The `mapper` dict of `content_processor/process_raw_content.py`
(key = correct char, value = list of wrong chars), in insertion order. -/
def procMapper : List (Char × List Char) :=
  [('1', ['(', '{']), ('x', ['«', '¥', '#']), ('-', ['~']), ('P', ['?'])]

/-- The `mapper` dict of `content_detector/process_raw_content.py`
(no `'#'` entry). -/
def detMapper : List (Char × List Char) :=
  [('1', ['(', '{']), ('x', ['«', '¥']), ('-', ['~']), ('P', ['?'])]

/-- The nested `for valid, invalid in mapper.items(): for char in invalid:
new_text = new_text.replace(char, valid)` loop. -/
def applyMapper (mapper : List (Char × List Char)) (text : Str) : Str :=
  mapper.foldl (fun t vi => vi.2.foldl (fun t2 c => pyReplaceChar t2 c vi.1) t) text

/-- Embedding of `replace_invalid_chars` of `content_processor/process_raw_content.py`. -/
def replace_invalid_chars (text : Str) : Str := applyMapper procMapper text

/-- Embedding of `replace_invalid_chars` of `content_detector/process_raw_content.py`. -/
def replace_invalid_chars_det (text : Str) : Str := applyMapper detMapper text

/-- The characters the processor-side substitution table replaces. -/
def procInvalid : List Char := ['(', '{', '«', '¥', '#', '~', '?']

/-- The characters the detector-side substitution table replaces. -/
def detInvalid : List Char := ['(', '{', '«', '¥', '~', '?']

/-- The processor-side substitution, as a single character function. -/
def procFix (c : Char) : Char :=
  if c = '(' ∨ c = '{' then '1'
  else if c = '«' ∨ c = '¥' ∨ c = '#' then 'x'
  else if c = '~' then '-'
  else if c = '?' then 'P'
  else c

/-- The detector-side substitution, as a single character function. -/
def detFix (c : Char) : Char :=
  if c = '(' ∨ c = '{' then '1'
  else if c = '«' ∨ c = '¥' then 'x'
  else if c = '~' then '-'
  else if c = '?' then 'P'
  else c

/-! ## A backtracking regular-expression matcher

Python's `re` engine is a backtracking matcher: alternatives are tried
left to right, quantifiers are greedy (longest first), `pattern.match`
anchors at the start of the string (and need not reach its end),
`pattern.search` tries successive start positions left to right.  The
patterns of the source only need: single-character classes, concatenation,
greedy `?` `+` `*` `{m,n}` over single-character classes, and
non-repeated capture groups.  `mRe` reproduces exactly this search
order, so it computes the same match and the same group captures as
`re` does on these patterns. -/

inductive Re where
  | eps
  | pred (p : Char → Bool)
  | seq (a b : Re)
  | alt (a b : Re)
  | starP (p : Char → Bool)
  | group (i : Nat) (a : Re)

abbrev Caps := List (Nat × Str)

/-- A match outcome: the group captures and the remaining suffix. -/
abbrev MRes := Option (Caps × Str)

/-- Greedy `p*`: consume as many `p`-characters as possible, backtracking
one at a time into the continuation. -/
def mStar (p : Char → Bool) : Str → (Str → MRes) → MRes
  | [], k => k []
  | c :: rest, k =>
    if p c then (mStar p rest k).orElse (fun _ => k (c :: rest))
    else k (c :: rest)

/-- The matcher, in continuation-passing style; `caps` accumulates the
captures of completed groups (failed branches discard theirs). -/
def mRe : Re → Str → Caps → (Str → Caps → MRes) → MRes
  | .eps, s, caps, k => k s caps
  | .pred p, s, caps, k =>
    match s with
    | [] => none
    | c :: rest => if p c then k rest caps else none
  | .seq a b, s, caps, k => mRe a s caps (fun s1 c1 => mRe b s1 c1 k)
  | .alt a b, s, caps, k => (mRe a s caps k).orElse (fun _ => mRe b s caps k)
  | .starP p, s, caps, k => mStar p s (fun s1 => k s1 caps)
  | .group i a, s, caps, k =>
    mRe a s caps (fun s1 c1 => k s1 ((i, s.take (s.length - s1.length)) :: c1))

/-- Embedding of `pattern.match(s)`: anchored at the start, remainder unconstrained. -/
def reMatch (re : Re) (s : Str) : MRes :=
  mRe re s [] (fun s1 caps => some (caps, s1))

/-- Embedding of `pattern.search(s)`: try successive start positions. -/
def reSearch (re : Re) : Str → MRes
  | [] => reMatch re []
  | c :: t => (reMatch re (c :: t)).orElse (fun _ => reSearch re t)

/-- Embedding of `match.group(i)` as an `Option` (`none` = the group did not
participate, Python's `None`). -/
def capLookup (caps : Caps) (i : Nat) : Option Str :=
  (caps.find? (fun e => e.1 == i)).map (fun e => e.2)

/-- Embedding of `match.group(i)` for a group known to participate. -/
def capStr (caps : Caps) (i : Nat) : Str := (capLookup caps i).getD []

/-- Greedy `a?`. -/
def Re.opt (a : Re) : Re := .alt a .eps

/-- Greedy `p+` over a character class. -/
def Re.plusP (p : Char → Bool) : Re := .seq (.pred p) (.starP p)

/-- Greedy `p{0,1}` / `p{0,2}` / `p{0,3}` / `p{1,2}` over a class
(Python `{m,n}` prefers the longest count). -/
def rep01 (p : Char → Bool) : Re := Re.opt (.pred p)

def rep02 (p : Char → Bool) : Re := Re.opt (.seq (.pred p) (rep01 p))

def rep03 (p : Char → Bool) : Re := Re.opt (.seq (.pred p) (rep02 p))

def rep12 (p : Char → Bool) : Re := .seq (.pred p) (rep01 p)

/-- Concatenation of a pattern list. -/
def seqs (l : List Re) : Re := l.foldr .seq .eps

/-- A literal string as a pattern. -/
def litRe (cs : Str) : Re := seqs (cs.map (fun c => .pred (fun x => x = c)))

/-! Character classes.  The receipts are ASCII in every matched field, so
`\w`, `\s`, `\d` are embedded by their ASCII meaning. -/

def isSpaceC (c : Char) : Bool :=
  c = ' ' || c = '\t' || c = '\n' || c = '\r' || c = '\x0b' || c = '\x0c'

def nonSpaceC (c : Char) : Bool := !(isSpaceC c)

def isWordC (c : Char) : Bool := c.isAlphanum || c = '_'

/-- Embedding of `.` outside DOTALL mode: any character but a newline. -/
def dotC (c : Char) : Bool := c ≠ '\n'

/-- Embedding of `[,. ]`. -/
def sepSpC (c : Char) : Bool := c = ',' || c = '.' || c = ' '

/-- Embedding of `[,.]`. -/
def commaDotC (c : Char) : Bool := c = ',' || c = '.'

/-- Embedding of `[t\d]`. -/
def unitPriceC (c : Char) : Bool := c = 't' || c.isDigit

/-- Embedding of `[,.]\s?\d{,2}`, the common tail of the unit/total price groups. -/
def priceTailRe : Re :=
  .seq (.pred commaDotC) (.seq (rep01 isSpaceC) (rep02 Char.isDigit))

/-- The verbose item pattern of `get_item`
(`content_processor/process_raw_content.py` lines 236-244, identical in
`content_detector/process_raw_content.py`), concatenated:
`(.+)\s+\S{1,2}\s+(\d+([,. ]\d+)?)\sx?([t\d]+[,.]\s?\d{,2})\s+(\d+[,.]\s?\d{,2})`. -/
def itemRe : Re := seqs [
  .group 1 (Re.plusP dotC),
  Re.plusP isSpaceC,
  rep12 nonSpaceC,
  Re.plusP isSpaceC,
  .group 2 (.seq (Re.plusP Char.isDigit)
    (Re.opt (.group 3 (.seq (.pred sepSpC) (Re.plusP Char.isDigit))))),
  .pred isSpaceC,
  Re.opt (.pred (fun c => c = 'x')),
  .group 4 (.seq (Re.plusP unitPriceC) priceTailRe),
  Re.plusP isSpaceC,
  .group 5 (.seq (Re.plusP Char.isDigit) priceTailRe)]

/-- Embedding of `(\d+)([,. ]+(\d{,3}))?`, the pattern of `get_qty`. -/
def qtyRe : Re :=
  .seq (.group 1 (Re.plusP Char.isDigit))
    (Re.opt (.group 2 (.seq (Re.plusP sepSpC) (.group 3 (rep03 Char.isDigit)))))

/-- Embedding of `(\w+)[,. ]+(\w{,2})`, the `price_pattern` of `get_price`. -/
def priceRe : Re :=
  seqs [.group 1 (Re.plusP isWordC), Re.plusP sepSpC, .group 2 (rep02 isWordC)]

/-- Embedding of `OPUST.*(\w+)[,. ]+(\w{,2})`, the `discount_pattern` of
`content_processor/process_raw_content.py` (the detector variant
`OPUST -?(\w+)[,. ]+(\w{,2})` differs; the processor one is embedded, as
the claims cite the processor's `get_items`). -/
def discountRe : Re :=
  seqs [litRe "OPUST".toList, .starP dotC,
    .group 1 (Re.plusP isWordC), Re.plusP sepSpC, .group 2 (rep02 isWordC)]

/-! ## Numeric coercion (`string_to_float`, `misc.py`)

`float(string)` is embedded for the grammar Python accepts on the strings
this pipeline can build: optional surrounding whitespace, an optional
sign, a decimal mantissa (digits with single underscores between digits,
an optional point, at least one digit), and an optional exponent part.
(`inf`/`nan` spellings cannot be produced by `get_qty`/`get_price`, whose
results always contain a `.` between two word-character runs.) -/

/-- The `(('_')? digit)*` continuation of a digit group with underscores:
Python allows a single `_` only between two digits. -/
def undTail : Str → Bool
  | [] => true
  | '_' :: rest =>
    match rest with
    | [] => false
    | c :: r2 => c.isDigit && undTail r2
  | c :: rest => c.isDigit && undTail rest

/-- A non-empty digit group, possibly with underscores between digits. -/
def digitsGroup : Str → Bool
  | [] => false
  | c :: rest => c.isDigit && undTail rest

def stripUnd (s : Str) : Str := s.filter (fun c => c ≠ '_')

def digitsToNat (s : Str) : ℕ :=
  s.foldl (fun a c => 10 * a + (c.toNat - '0'.toNat)) 0

/-- Split at the first character satisfying `p`; `none` if absent. -/
def splitFirst (p : Char → Bool) : Str → (Str × Option Str)
  | [] => ([], none)
  | c :: rest =>
    if p c then ([], some rest)
    else
      let r := splitFirst p rest
      (c :: r.1, r.2)

/-- Embedding of `string.strip()` (ASCII whitespace). -/
def pyStrip (s : Str) : Str :=
  ((s.dropWhile isSpaceC).reverse.dropWhile isSpaceC).reverse

/-- Exact value of `float(s)`, or `none` where Python raises `ValueError`. -/
def pyFloat (s0 : Str) : Option ℚ :=
  let s1 := pyStrip s0
  let sgn : ℚ × Str :=
    match s1 with
    | '+' :: r => (1, r)
    | '-' :: r => (-1, r)
    | r => (1, r)
  let mantExp := splitFirst (fun c => c = 'e' || c = 'E') sgn.2
  let intFrac := splitFirst (fun c => c = '.') mantExp.1
  let ipart := intFrac.1
  let mantOk : Bool :=
    match intFrac.2 with
    | none => digitsGroup ipart
    | some f =>
      (ipart.isEmpty || digitsGroup ipart) && (f.isEmpty || digitsGroup f)
        && !(ipart.isEmpty && f.isEmpty)
  if mantOk then
    let fpart := (intFrac.2).getD []
    let fdigits := stripUnd fpart
    let mant : ℚ :=
      (digitsToNat (stripUnd ipart) : ℚ)
        + (digitsToNat fdigits : ℚ) / (10 : ℚ) ^ fdigits.length
    match mantExp.2 with
    | none => some (sgn.1 * mant)
    | some e =>
      let esgn : Bool × Str :=
        match e with
        | '+' :: r => (true, r)
        | '-' :: r => (false, r)
        | r => (true, r)
      if digitsGroup esgn.2 then
        let n := digitsToNat (stripUnd esgn.2)
        some (sgn.1 * mant * (if esgn.1 then (10 : ℚ) ^ n else 1 / (10 : ℚ) ^ n))
      else none
  else none

/-- A Python value that is either a number or the sentinel `False`
(`string_to_float` returns `False` on failure in non-interactive mode). -/
inductive PyVal where
  | num (q : ℚ)
  | bool (b : Bool)
  deriving DecidableEq, Repr

/-- Embedding of `string_to_float` of `content_detector/misc.py` (the processor package
imports a `misc` module of the same shape; its call sites pass the item
row as the log context).  On `ValueError` with `do_correct=True` the
source re-prompts `input()` until `float` succeeds, so the call returns a
number chosen by the operator: the operator is the oracle `corr`, keyed
by the strings shown in the prompt (the item row and the offending
substring).  With `do_correct=False` it returns the sentinel `False`
without prompting. -/
def string_to_float (s : Str) (itemStr : Str) (do_correct : Bool)
    (corr : Str → Str → ℚ) : PyVal :=
  match pyFloat s with
  | some q => .num q
  | none => if do_correct then .num (corr itemStr s) else .bool false

/-! ## Item extraction (`get_qty`, `get_price`, `get_item`, `get_items`) -/

/-- Embedding of `get_qty` (`content_processor/process_raw_content.py` lines 139-149):
re-match the quantity substring and normalise its decimal separator.
`pattern.match(...)` returning `None` makes `.groups()` raise
`AttributeError`. -/
def get_qty (s : Str) : Except PyErr Str :=
  match reMatch qtyRe s with
  | none => .error .attributeError
  | some (caps, _) =>
    match capLookup caps 3 with
    | none => .ok (capStr caps 1)
    | some d => .ok (capStr caps 1 ++ ('.' :: d))

/-- Embedding of `get_price` (`content_processor/process_raw_content.py` lines
152-173): search for the (discount or plain) price pattern and join the
two captured groups with a period. -/
def get_price (s : Str) (is_discount : Bool) : Except PyErr Str :=
  match reSearch (if is_discount then discountRe else priceRe) s with
  | none => .error .attributeError
  | some (caps, _) => .ok (capStr caps 1 ++ ('.' :: capStr caps 2))

/-- One parsed item row, fields as the Python dict of `get_item` holds
them after the numeric conversion loop. -/
structure RawItem where
  name : Str
  qty : PyVal
  unit_price : PyVal
  total_price : PyVal
  total_discount : PyVal
  final_price : PyVal
  deriving DecidableEq, Repr

/-- Embedding of `get_item` (`content_processor/process_raw_content.py` lines
224-268): match the item grammar (`None` on failure), normalise the
numeric substrings, coerce them, initialise `total_discount` to `0.0`
and `final_price` to the coerced total price. -/
def get_item (text : Str) (do_correct : Bool) (corr : Str → Str → ℚ) :
    Except PyErr (Option RawItem) :=
  match reMatch itemRe text with
  | none => .ok none
  | some (caps, _) =>
    match get_qty (capStr caps 2) with
    | .error e => .error e
    | .ok qtyStr =>
      match get_price (capStr caps 4) false with
      | .error e => .error e
      | .ok upStr =>
        match get_price (capStr caps 5) false with
        | .error e => .error e
        | .ok tpStr =>
          let tp := string_to_float tpStr text do_correct corr
          .ok (some {
            name := capStr caps 1,
            qty := string_to_float qtyStr text do_correct corr,
            unit_price := string_to_float upStr text do_correct corr,
            total_price := tp,
            total_discount := .num 0,
            final_price := tp })

/-- The per-group loop of `get_items`: parse the head row (`line[0]`),
skip the group when it yields `None`, and on a multi-line group overwrite
`total_discount`/`final_price` from `line[1]`/`line[2]`. -/
def itemsLoop (do_correct : Bool) (corr : Str → Str → ℚ) :
    List (List Str) → Except PyErr (List RawItem)
  | [] => .ok []
  | g :: rest =>
    match g with
    | [] => .error .indexError
    | item_line :: tailg =>
      match get_item item_line do_correct corr with
      | .error e => .error e
      | .ok none => itemsLoop do_correct corr rest
      | .ok (some it) =>
        match tailg with
        | [] =>
          match itemsLoop do_correct corr rest with
          | .error e => .error e
          | .ok l => .ok (it :: l)
        | discount_line :: tail2 =>
          match tail2 with
          | [] => .error .indexError
          | final_price_line :: _ =>
            match get_price discount_line true with
            | .error e => .error e
            | .ok dStr =>
              match get_price final_price_line false with
              | .error e => .error e
              | .ok fStr =>
                match itemsLoop do_correct corr rest with
                | .error e => .error e
                | .ok l => .ok ({ it with
                    total_discount := string_to_float dStr item_line do_correct corr,
                    final_price := string_to_float fStr item_line do_correct corr } :: l)

/-- Embedding of `get_items` on an already newline-split list of rows. -/
def itemsFromRows (rows : List Str) (do_correct : Bool)
    (corr : Str → Str → ℚ) : Except PyErr (List RawItem) :=
  match splitLoop (rows.filter (fun l => l ≠ [])) [] with
  | .error e => .error e
  | .ok gs => itemsLoop do_correct corr gs

/-- Embedding of `get_items` (`content_processor/process_raw_content.py` lines
271-315). -/
def get_items (text : Str) (do_correct : Bool) (corr : Str → Str → ℚ) :
    Except PyErr (List RawItem) :=
  itemsFromRows (pySplit '\n' text) do_correct corr

/-! ## Reconciliation (`content_processor/process_extracted_content.py`)

The record's items live in a pandas DataFrame.  A field whose extraction
failed holds the sentinel `False`; Python's `bool` is an `int`, so in
every comparison (`df == False`) and arithmetic operation the sentinel
behaves exactly like `0.0`, and it is modelled as the rational `0`.
A missing discount is NaN/null, modelled as `Option.none`. -/

structure Item where
  name : Str
  qty : ℚ
  unit_price : ℚ
  total_price : ℚ
  total_discount : Option ℚ
  final_price : ℚ
  deriving DecidableEq, Repr

/-- A Python dict of property name to numeric value (the `values` dicts
of `get_new_values` and the argument of the two check functions). -/
abbrev PropVals := List (String × ℚ)

def valLookup (vs : PropVals) (k : String) : Option ℚ :=
  (vs.find? (fun e => e.1 == k)).map (fun e => e.2)

/-- Embedding of `data[k]`; every call site passes a dict holding the key. -/
def propGet (vs : PropVals) (k : String) : ℚ := (valLookup vs k).getD 0

/-- Embedding of `item[prop]` on a DataFrame row (NaN discount reads as `0`; the
sources only read `total_discount` on discounted rows). -/
def itemProp (it : Item) : String → ℚ
  | "qty" => it.qty
  | "unit_price" => it.unit_price
  | "total_price" => it.total_price
  | "total_discount" => it.total_discount.getD 0
  | "final_price" => it.final_price
  | _ => 0

/-- Embedding of `is_final_price_correct` (lines 203-220). -/
def is_final_price_correct (data : PropVals) : Bool :=
  roundTo2 (propGet data "total_price" - propGet data "total_discount")
    == propGet data "final_price"

/-- Embedding of `is_total_price_correct` (lines 223-240). -/
def is_total_price_correct (data : PropVals) : Bool :=
  roundTo2 (propGet data "qty" * propGet data "unit_price")
    == propGet data "total_price"

/-- Embedding of `get_new_values` (lines 243-279): per retry round the operator either
enters a number for a property or presses Enter to keep the item's value;
the loop repeats until `func(values)` holds.  One round of answers is a
function from property name to `Option ℚ` (`none` = skip); the retry
rounds the operator supplies are a finite list, and an exhausted list
models the operator never satisfying the check (`none`: the source loops
forever re-prompting). -/
def get_new_values (item : Item) (func : PropVals → Bool) (props : List String)
    (initial : PropVals) : List (String → Option ℚ) → Option PropVals
  | [] => none
  | ans :: rest =>
    let values := initial ++ props.map (fun p => (p, (ans p).getD (itemProp item p)))
    if func values then some values else get_new_values item func props initial rest

/-- Write the values dict back into a DataFrame row
(`correct_items_df.loc[i, list(values.keys())] = values` followed by
`df.update(...)`): exactly the present keys are overwritten. -/
def applyValues (it : Item) (vs : PropVals) : Item :=
  { name := it.name
    qty := (valLookup vs "qty").getD it.qty
    unit_price := (valLookup vs "unit_price").getD it.unit_price
    total_price := (valLookup vs "total_price").getD it.total_price
    total_discount :=
      match valLookup vs "total_discount" with
      | some d => some d
      | none => it.total_discount
    final_price := (valLookup vs "final_price").getD it.final_price }

/-- Embedding of `values.update(disc_values)`: keys of the second dict win
(`valLookup` scans left to right). -/
def pyDictUpdate (a b : PropVals) : PropVals := b ++ a

/-- Row selection of `(df == False).any(axis=1)`: a numeric cell equals
`False` exactly when it is `0.0` (`0.0 == False` is `True` in Python); a
string name and a NaN discount never equal `False`. -/
def itemIsMissing (it : Item) : Bool :=
  it.qty == 0 || it.unit_price == 0 || it.total_price == 0
    || it.final_price == 0 || it.total_discount == some 0

/-- Embedding of `get_missing_properties` (`content_detector/process_extracted_content.py`
lines 28-31): `df.copy().loc[(df == False).any(axis=1)]`. -/
def get_missing_properties (items : List Item) : List Item :=
  items.filter itemIsMissing

/-- The per-row body of `correct_missing_properties` (lines 35-77): every
property equal to `False` is replaced by an operator-entered number
(`string_to_float(input(...))` with correction, i.e. a number). -/
def fillMissing (ans : String → ℚ) (it : Item) : Item :=
  { name := it.name
    qty := if it.qty == 0 then ans "qty" else it.qty
    unit_price := if it.unit_price == 0 then ans "unit_price" else it.unit_price
    total_price := if it.total_price == 0 then ans "total_price" else it.total_price
    total_discount :=
      match it.total_discount with
      | some d => if d == 0 then some (ans "total_discount") else some d
      | none => none
    final_price := if it.final_price == 0 then ans "final_price" else it.final_price }

/-- The row loop of `correct_missing_properties`, threading the DataFrame
index the oracle is keyed by. -/
def fillRows (ans : Nat → String → ℚ) : Nat → List Item → List Item
  | _, [] => []
  | i, it :: rest =>
    (if itemIsMissing it then fillMissing (ans i) it else it) :: fillRows ans (i + 1) rest

/-- Embedding of `correct_missing_properties(df, inplace=True)` as a function on the
item rows. -/
def correct_missing_properties (ans : Nat → String → ℚ) (items : List Item) :
    List Item :=
  fillRows ans 0 items

/-- Run a fallible per-row correction over the rows, threading the row
index (the DataFrame index the oracles are keyed by). -/
def correctRows (f : Nat → Item → Option Item) : Nat → List Item → Option (List Item)
  | _, [] => some []
  | i, it :: rest =>
    match f i it with
    | none => none
    | some it2 =>
      match correctRows f (i + 1) rest with
      | none => none
      | some l => some (it2 :: l)

/-- A discounted row failing `final_price != round(total_price -
total_discount, 2)` (the selection of `correct_discounted_items`). -/
def discWrong (it : Item) : Bool :=
  it.total_discount.isSome
    && !(it.final_price == roundTo2 (it.total_price - it.total_discount.getD 0))

def discProps : List String := ["total_price", "total_discount", "final_price"]

/-- Embedding of `correct_discounted_items(df, inplace=True)` (lines 80-128): if no
discounted row is wrong the frame is untouched; otherwise each wrong row
is replaced by operator values satisfying `is_final_price_correct`. -/
def correct_discounted_items (rounds : Nat → List (String → Option ℚ))
    (items : List Item) : Option (List Item) :=
  if (items.filter discWrong).isEmpty then some items
  else
    correctRows (fun i it =>
      if discWrong it then
        match get_new_values it is_final_price_correct discProps [] (rounds i) with
        | none => none
        | some vs => some (applyValues it vs)
      else some it) 0 items

/-- A row failing `total_price != round(qty * unit_price, 2)` (the
selection of `correct_wrong_items`). -/
def totWrong (it : Item) : Bool :=
  !(it.total_price == roundTo2 (it.qty * it.unit_price))

def totProps : List String := ["qty", "unit_price", "total_price"]

def finProps : List String := ["total_discount", "final_price"]

/-- Embedding of `correct_wrong_items(df, inplace=True)` (lines 131-200): rows failing
the total-price check get operator values satisfying
`is_total_price_correct`; a discounted such row is then re-checked with
`is_final_price_correct` (new total price, old discount and final price)
and, failing that, gets operator values for discount/final price on top;
a non-discounted row gets `final_price = total_price`. -/
def correct_wrong_items (rounds discRounds : Nat → List (String → Option ℚ))
    (items : List Item) : Option (List Item) :=
  if (items.filter totWrong).isEmpty then some items
  else
    correctRows (fun i it =>
      if totWrong it then
        match get_new_values it is_total_price_correct totProps [] (rounds i) with
        | none => none
        | some vs =>
          if it.total_discount.isSome then
            if is_final_price_correct
                [("total_price", propGet vs "total_price"),
                 ("total_discount", it.total_discount.getD 0),
                 ("final_price", it.final_price)] then
              some (applyValues it vs)
            else
              match get_new_values it is_final_price_correct finProps
                  [("total_price", propGet vs "total_price")] (discRounds i) with
              | none => none
              | some dvs => some (applyValues it (pyDictUpdate vs dvs))
          else
            some (applyValues it (vs ++ [("final_price", propGet vs "total_price")]))
      else some it) 0 items

/-- Embedding of `get_total_sum_diff` (lines 315-332, identically
`content_detector/process_extracted_content.py` lines 289-299):
`round(abs(extr_total_sum - items_df['final_price'].sum()), 2)`. -/
def get_total_sum_diff (total_sum : ℚ) (items : List Item) : ℚ :=
  roundTo2 |total_sum - (items.map (fun it => it.final_price)).sum|

/-! ### `get_new_item` -/

/-- A Python object held in the new-item dict. -/
inductive PyObj where
  | num (q : ℚ)
  | str (s : Str)
  | none
  deriving DecidableEq, Repr

abbrev PyDict := List (String × PyObj)

/-- Embedding of `d[k]`, raising `KeyError(k)` when the key is absent. -/
def dictGet (d : PyDict) (k : String) : Except PyErr PyObj :=
  match d.find? (fun e => e.1 == k) with
  | some e => .ok e.2
  | Option.none => .error (.keyError k)

/-- Embedding of `d[k] = v`, preserving dict insertion order. -/
def dictSet : PyDict → String → PyObj → PyDict
  | [], k, v => [(k, v)]
  | e :: rest, k, v => if e.1 == k then (k, v) :: rest else e :: dictSet rest k v

/-- Embedding of `get_new_item` (lines 282-312, identically
`content_detector/process_extracted_content.py` lines 256-286): build the
item dict from operator-entered values, derive `total_price =
round(qty * unit_price, 2)`, store the discount (`None` when the entered
discount is `0`), then branch on `item['discount']` — a key that was
never set (the dict key is `total_discount`), so the lookup raises
`KeyError('discount')`.  In the (unreachable) success branches,
`final_price` is `total_price` for a `None` discount and
`total_price - total_discount` (unrounded) otherwise. -/
def get_new_item (name : Str) (qty unit_price discount : ℚ) :
    Except PyErr PyDict :=
  let d0 : PyDict := []
  let d1 := dictSet d0 "name" (.str name)
  let d2 := dictSet d1 "qty" (.num qty)
  let d3 := dictSet d2 "unit_price" (.num unit_price)
  let tp := roundTo2 (qty * unit_price)
  let d4 := dictSet d3 "total_price" (.num tp)
  let d5 := dictSet d4 "total_discount"
    (if discount == 0 then PyObj.none else PyObj.num discount)
  match dictGet d5 "discount" with
  | .error e => .error e
  | .ok v =>
    if v == PyObj.none then .ok (dictSet d5 "final_price" (.num tp))
    else .ok (dictSet d5 "final_price" (.num (tp - discount)))

/-! ### `process_content` -/

inductive ExitTag where
  | reconciled
  | acceptedWithDiscrepancy
  deriving DecidableEq, Repr

/-- The operator inputs `get_new_item` reads. -/
structure NewItemInput where
  name : Str
  qty : ℚ
  unit_price : ℚ
  discount : ℚ
  deriving DecidableEq, Repr

/-- One round of answers to the `while True:` loop of `process_content`:
either the extracted total is declared correct and items are to be added
(the first new item's inputs are given), or it is declared correct and no
items are added, or it is declared wrong and replaced. -/
inductive LoopAnswer where
  | totalCorrectAdd (first : NewItemInput)
  | totalCorrectNoAdd
  | totalWrong (newTotal : ℚ)
  deriving DecidableEq

/-- Outcome of `process_content`: a returned record (with its terminal
state) or an uncaught exception. -/
inductive POut where
  | ret (tag : ExitTag) (items : List Item) (total_sum : ℚ)
  | crash (e : PyErr)
  deriving DecidableEq

/-- The `while True:` validation loop of `process_content` (lines
397-453).  A zero grand-total difference returns the record — the
`RECONCILED` exit.  Otherwise: declaring the extracted total wrong
replaces it and loops; accepting it and declining to add items returns
the record as-is (`ACCEPTED_WITH_DISCREPANCY`); accepting and choosing to
add items first calls `get_new_item()`, which raises
`KeyError('discount')` on every input (see `get_new_item`), so that
branch ends in an uncaught exception — and were `get_new_item` ever to
return, `pd.DataFrame([items_df, new_items])` (an invalid constructor
call) and `content['items'].update(new_items)` (a `list` has no
`update`) would raise in turn, modelled as the crash in the `.ok`
branch. -/
def reconcileLoop : Nat → List Item → ℚ → List LoopAnswer → Option POut
  | 0, _, _, _ => none
  | fuel + 1, items, total, answers =>
    if get_total_sum_diff total items == 0 then
      some (.ret .reconciled items total)
    else
      match answers with
      | [] => none
      | .totalCorrectAdd first :: _ =>
        match get_new_item first.name first.qty first.unit_price first.discount with
        | .error e => some (.crash e)
        | .ok _ => some (.crash .attributeError)
      | .totalCorrectNoAdd :: _ => some (.ret .acceptedWithDiscrepancy items total)
      | .totalWrong t :: rest => reconcileLoop fuel items t rest

/-- All operator-input oracles `process_content` consumes, keyed by the
DataFrame row index where per-row. -/
structure Oracles where
  missing : Nat → String → ℚ
  disc : Nat → List (String → Option ℚ)
  wrong : Nat → List (String → Option ℚ)
  wrongDisc : Nat → List (String → Option ℚ)
  loopAnswers : List LoopAnswer

/-- Embedding of `process_content` (lines 357-453): the three correction passes
mutate the items DataFrame in place, then the validation loop runs on the
corrected rows and the (possibly operator-replaced) total sum. -/
def process_content (fuel : Nat) (o : Oracles) (items : List Item)
    (total_sum : ℚ) : Option POut :=
  let items1 := correct_missing_properties o.missing items
  match correct_discounted_items o.disc items1 with
  | none => none
  | some items2 =>
    match correct_wrong_items o.wrong o.wrongDisc items2 with
    | none => none
    | some items3 => reconcileLoop fuel items3 total_sum o.loopAnswers

/-! ## The arithmetic invariants of a reconciled record -/

/-- Spec invariant: every item's printed total price equals
`round(qty * unit_price, 2)`. -/
def totOK (it : Item) : Prop := it.total_price = roundTo2 (it.qty * it.unit_price)

/-- Spec invariant: every discounted item's final price equals
`round(total_price - total_discount, 2)`. -/
def discOK (it : Item) : Prop :=
  ∀ d, it.total_discount = some d → it.final_price = roundTo2 (it.total_price - d)

/-! ## Concrete inputs used by counterexamples and witnesses -/

/-- A correction oracle that always answers `0` (never consulted in the
non-interactive runs below). -/
def corrZero : Str → Str → ℚ := fun _ _ => 0

/-- A record item that is arithmetically consistent
(`1 × 10.00 = 10.00`, no discount). -/
def cexItem : Item :=
  { name := "A".toList, qty := 1, unit_price := 10, total_price := 10,
    total_discount := none, final_price := 10 }

/-- A second consistent item (`2 × 3.00 = 6.00`). -/
def witItem : Item :=
  { name := "W".toList, qty := 2, unit_price := 3, total_price := 6,
    total_discount := none, final_price := 6 }

/-- An item with a legitimately zero quantity (a freebie line). -/
def zeroQtyItem : Item :=
  { name := "Z".toList, qty := 0, unit_price := 5, total_price := 0,
    total_discount := none, final_price := 0 }

/-- Trivial operator oracles (never consulted in the runs below). -/
def oracle0 : Oracles :=
  { missing := fun _ _ => 0, disc := fun _ => [], wrong := fun _ => [],
    wrongDisc := fun _ => [], loopAnswers := [] }

/-! ## Properties -/

section SegmentationLemmas

theorem appendToLast_length_mem {acc : List (List Str)} {x y : Str} :
    ∀ g ∈ appendToLast acc x y, ∃ g₀ ∈ acc, g = g₀ ∨ g = g₀ ++ [x, y] := by
  induction acc with
  | nil => intro g hg; simp [appendToLast] at hg
  | cons a rest ih =>
    intro g hg
    cases rest with
    | nil =>
      simp [appendToLast] at hg
      exact ⟨a, by simp, Or.inr hg⟩
    | cons b rest2 =>
      simp only [appendToLast] at hg
      rcases List.mem_cons.mp hg with h | h
      · exact ⟨a, by simp, Or.inl h⟩
      · rcases ih g h with ⟨g₀, hg₀, hor⟩
        exact ⟨g₀, by simp [hg₀], hor⟩

theorem splitLoop_odd :
    ∀ (n : Nat) (ts : List Str), ts.length ≤ n →
      ∀ acc gs, (∀ g ∈ acc, g.length % 2 = 1) → splitLoop ts acc = .ok gs →
        ∀ g ∈ gs, g.length % 2 = 1 := by
  intro n
  induction n with
  | zero =>
    intro ts hlen acc gs hacc hok
    have : ts = [] := List.eq_nil_of_length_eq_zero (Nat.le_zero.mp hlen)
    subst this
    simp only [splitLoop] at hok
    cases hok
    exact hacc
  | succ n ih =>
    intro ts hlen acc gs hacc hok
    cases ts with
    | nil =>
      simp only [splitLoop] at hok
      cases hok
      exact hacc
    | cons line rest =>
      by_cases hop : hasOpust line
      · cases acc with
        | nil => simp [splitLoop, hop] at hok
        | cons a acc2 =>
          cases rest with
          | nil => simp [splitLoop, hop] at hok
          | cons nxt rest2 =>
            simp only [splitLoop, hop, if_pos] at hok
            refine ih rest2 ?_ (appendToLast (a :: acc2) line nxt) gs ?_ hok
            · simp at hlen; omega
            · intro g hg
              rcases appendToLast_length_mem g hg with ⟨g₀, hg₀, hor⟩
              rcases hor with h | h
              · exact h ▸ hacc g₀ hg₀
              · have := hacc g₀ hg₀
                subst h
                simp only [List.length_append, List.length_cons, List.length_nil]
                omega
      · unfold splitLoop at hok
        rw [if_neg hop] at hok
        refine ih rest ?_ (acc ++ [[line]]) gs ?_ hok
        · simp at hlen; omega
        · intro g hg
          rcases List.mem_append.mp hg with h | h
          · exact hacc g h
          · simp at h; subst h; simp

theorem appendToLast_append {acc : List (List Str)} (pre : List (List Str))
    (x y : Str) (h : acc ≠ []) :
    appendToLast (pre ++ acc) x y = pre ++ appendToLast acc x y := by
  induction pre with
  | nil => rfl
  | cons p pre ih =>
    cases pre with
    | nil =>
      cases acc with
      | nil => exact absurd rfl h
      | cons a acc2 => simp [appendToLast, ih]
    | cons p2 pre2 =>
      show p :: appendToLast ((p2 :: pre2) ++ acc) x y
          = p :: ((p2 :: pre2) ++ appendToLast acc x y)
      exact congrArg _ ih

theorem splitLoop_cons_opust (line nxt : Str) (rest2 : List Str)
    (acc : List (List Str)) (hop : hasOpust line = true) (h : acc ≠ []) :
    splitLoop (line :: nxt :: rest2) acc
      = splitLoop rest2 (appendToLast acc line nxt) := by
  cases acc with
  | nil => exact absurd rfl h
  | cons a acc2 => simp [splitLoop, hop]

theorem splitLoop_prepend :
    ∀ (n : Nat) (ts : List Str), ts.length ≤ n →
      ∀ (pre acc gs : List (List Str)), splitLoop ts acc = .ok gs →
        splitLoop ts (pre ++ acc) = .ok (pre ++ gs) := by
  intro n
  induction n with
  | zero =>
    intro ts hlen pre acc gs hok
    have : ts = [] := List.eq_nil_of_length_eq_zero (Nat.le_zero.mp hlen)
    subst this
    simp only [splitLoop] at hok ⊢
    cases hok
    rfl
  | succ n ih =>
    intro ts hlen pre acc gs hok
    cases ts with
    | nil =>
      simp only [splitLoop] at hok ⊢
      cases hok
      rfl
    | cons line rest =>
      by_cases hop : hasOpust line
      · cases acc with
        | nil => simp [splitLoop, hop] at hok
        | cons a acc2 =>
          cases rest with
          | nil => simp [splitLoop, hop] at hok
          | cons nxt rest2 =>
            simp only [splitLoop, hop, if_pos] at hok
            have hne : (a :: acc2 : List (List Str)) ≠ [] := by simp
            rw [splitLoop_cons_opust line nxt rest2 _ hop (by simp),
              appendToLast_append pre line nxt hne]
            exact ih rest2 (by simp at hlen; omega) pre _ gs hok
      · unfold splitLoop at hok ⊢
        rw [if_neg hop] at hok ⊢
        rw [List.append_assoc]
        exact ih rest (by simp at hlen; omega) pre (acc ++ [[line]]) gs hok

theorem splitLoop_cons_noopust (line : Str) (rest : List Str)
    (acc : List (List Str)) (hop : hasOpust line = false) :
    splitLoop (line :: rest) acc = splitLoop rest (acc ++ [[line]]) := by
  conv_lhs => rw [splitLoop.eq_def]
  simp [hop]

end SegmentationLemmas

section NormalizationLemmas

theorem replace_invalid_chars_eq_map (t : Str) :
    replace_invalid_chars t = t.map procFix := by
  unfold replace_invalid_chars applyMapper procMapper pyReplaceChar
  simp only [List.foldl_cons, List.foldl_nil, List.map_map]
  apply List.map_congr_left
  intro c _
  by_cases h1 : c = '('
  · subst h1; rfl
  by_cases h2 : c = '{'
  · subst h2; rfl
  by_cases h3 : c = '«'
  · subst h3; rfl
  by_cases h4 : c = '¥'
  · subst h4; rfl
  by_cases h5 : c = '#'
  · subst h5; rfl
  by_cases h6 : c = '~'
  · subst h6; rfl
  by_cases h7 : c = '?'
  · subst h7; rfl
  simp [procFix, h1, h2, h3, h4, h5, h6, h7, Function.comp]

theorem replace_invalid_chars_det_eq_map (t : Str) :
    replace_invalid_chars_det t = t.map detFix := by
  unfold replace_invalid_chars_det applyMapper detMapper pyReplaceChar
  simp only [List.foldl_cons, List.foldl_nil, List.map_map]
  apply List.map_congr_left
  intro c _
  by_cases h1 : c = '('
  · subst h1; rfl
  by_cases h2 : c = '{'
  · subst h2; rfl
  by_cases h3 : c = '«'
  · subst h3; rfl
  by_cases h4 : c = '¥'
  · subst h4; rfl
  by_cases h6 : c = '~'
  · subst h6; rfl
  by_cases h7 : c = '?'
  · subst h7; rfl
  simp [detFix, h1, h2, h3, h4, h6, h7, Function.comp]

theorem procFix_procFix (c : Char) : procFix (procFix c) = procFix c := by
  by_cases h1 : c = '(' ∨ c = '{'
  · rcases h1 with h | h
    · subst h; rfl
    · subst h; rfl
  by_cases h2 : c = '«' ∨ c = '¥' ∨ c = '#'
  · rcases h2 with h | h | h
    · subst h; rfl
    · subst h; rfl
    · subst h; rfl
  by_cases h3 : c = '~'
  · subst h3; rfl
  by_cases h4 : c = '?'
  · subst h4; rfl
  have : procFix c = c := by simp [procFix, h1, h2, h3, h4]
  rw [this, this]

theorem detFix_detFix (c : Char) : detFix (detFix c) = detFix c := by
  by_cases h1 : c = '(' ∨ c = '{'
  · rcases h1 with h | h
    · subst h; rfl
    · subst h; rfl
  by_cases h2 : c = '«' ∨ c = '¥'
  · rcases h2 with h | h
    · subst h; rfl
    · subst h; rfl
  by_cases h3 : c = '~'
  · subst h3; rfl
  by_cases h4 : c = '?'
  · subst h4; rfl
  have : detFix c = c := by simp [detFix, h1, h2, h3, h4]
  rw [this, this]

theorem procFix_not_invalid (c : Char) (h : c ∉ procInvalid) : procFix c = c := by
  simp only [procInvalid, List.mem_cons, List.not_mem_nil, or_false, not_or] at h
  obtain ⟨n1, n2, n3, n4, n5, n6, n7⟩ := h
  simp [procFix, n1, n2, n3, n4, n5, n6, n7]

theorem detFix_not_invalid (c : Char) (h : c ∉ detInvalid) : detFix c = c := by
  simp only [detInvalid, List.mem_cons, List.not_mem_nil, or_false, not_or] at h
  obtain ⟨n1, n2, n3, n4, n6, n7⟩ := h
  simp [detFix, n1, n2, n3, n4, n6, n7]

end NormalizationLemmas

/-! ## Arithmetic facts about `round` -/

section RoundingLemmas

theorem rhe_eq (y : ℚ) :
    rhe y =
      if Int.fract y < 1/2 then ⌊y⌋
      else if 1/2 < Int.fract y then ⌊y⌋ + 1
      else if ⌊y⌋ % 2 = 0 then ⌊y⌋ else ⌊y⌋ + 1 := rfl

theorem rhe_neg (y : ℚ) : rhe (-y) = -rhe y := by
  rw [rhe_eq, rhe_eq]
  by_cases h0 : Int.fract y = 0
  · obtain ⟨z, rfl⟩ : ∃ z : ℤ, y = (z : ℚ) := by
      rcases Int.fract_eq_iff.mp h0 with ⟨-, -, z, hz⟩
      exact ⟨z, by linarith⟩
    rw [show (-(z : ℚ)) = ((-z : ℤ) : ℚ) by push_cast; ring]
    simp only [Int.fract_intCast, Int.floor_intCast]
    norm_num
  · have hfneg : Int.fract (-y) = 1 - Int.fract y := Int.fract_neg h0
    have hfl : (0 : ℚ) ≤ Int.fract y := Int.fract_nonneg y
    have hfu : Int.fract y < 1 := Int.fract_lt_one y
    have h0' : 0 < Int.fract y := lt_of_le_of_ne hfl (Ne.symm h0)
    have hfloor : ⌊-y⌋ = -⌊y⌋ - 1 := by
      have e1 : ((⌊-y⌋ : ℤ) : ℚ) = -y - Int.fract (-y) := by
        rw [← Int.self_sub_fract]
      have e2 : ((⌊y⌋ : ℤ) : ℚ) = y - Int.fract y := by
        rw [← Int.self_sub_fract]
      have h1 : ((⌊-y⌋ : ℤ) : ℚ) = ((-⌊y⌋ - 1 : ℤ) : ℚ) := by
        rw [e1, hfneg]
        push_cast
        linarith
      exact_mod_cast h1
    rw [hfneg, hfloor]
    split_ifs <;> first | omega | linarith

theorem rhe_nonneg (y : ℚ) (h : 0 ≤ y) : 0 ≤ rhe y := by
  rw [rhe_eq]
  have hn : 0 ≤ ⌊y⌋ := Int.floor_nonneg.mpr h
  split_ifs <;> omega

theorem roundTo2_neg (x : ℚ) : roundTo2 (-x) = -roundTo2 x := by
  unfold roundTo2
  rw [show 100 * -x = -(100 * x) by ring, rhe_neg]
  push_cast
  ring

theorem roundTo2_nonneg (x : ℚ) (h : 0 ≤ x) : 0 ≤ roundTo2 x := by
  unfold roundTo2
  have := rhe_nonneg (100 * x) (by linarith)
  positivity

theorem roundTo2_abs (x : ℚ) : roundTo2 |x| = |roundTo2 x| := by
  rcases le_or_lt 0 x with h | h
  · rw [abs_of_nonneg h, abs_of_nonneg (roundTo2_nonneg x h)]
  · rw [abs_of_neg h, roundTo2_neg,
      abs_of_nonpos (by
        have := roundTo2_nonneg (-x) (by linarith)
        linarith [roundTo2_neg x])]

end RoundingLemmas

/-! ## Post-conditions of the correction passes -/

section CorrectionLemmas

/-- Lemma: `get_new_values` only returns a values dict accepted by the check. -/
theorem get_new_values_sat {item : Item} {func : PropVals → Bool}
    {props : List String} {initial : PropVals} :
    ∀ {rounds vs}, get_new_values item func props initial rounds = some vs →
      func vs = true ∧
        ∃ f : String → ℚ,
          vs = initial ++ props.map (fun p => (p, f p)) := by
  intro rounds
  induction rounds with
  | nil => intro vs h; simp [get_new_values] at h
  | cons ans rest ih =>
    intro vs h
    unfold get_new_values at h
    by_cases hc :
        func (initial ++ props.map (fun p => (p, (ans p).getD (itemProp item p)))) = true
    · rw [if_pos hc] at h
      cases h
      exact ⟨hc, fun p => (ans p).getD (itemProp item p), rfl⟩
    · rw [if_neg hc] at h
      exact ih h

/-- Every row produced by `correctRows` is the image of some input row
under the per-row correction. -/
theorem correctRows_mem {f : Nat → Item → Option Item} :
    ∀ {i items items2}, correctRows f i items = some items2 →
      ∀ it2 ∈ items2, ∃ j it, it ∈ items ∧ f j it = some it2 := by
  intro i items
  induction items generalizing i with
  | nil =>
    intro items2 h it2 hmem
    simp only [correctRows] at h
    cases h
    simp at hmem
  | cons a rest ih =>
    intro items2 h it2 hmem
    unfold correctRows at h
    cases ha : f i a with
    | none => rw [ha] at h; cases h
    | some a2 =>
      rw [ha] at h
      cases hr : correctRows f (i + 1) rest with
      | none => rw [hr] at h; cases h
      | some l =>
        rw [hr] at h
        cases h
        rcases List.mem_cons.mp hmem with h2 | h2
        · exact ⟨i, a, by simp, h2 ▸ ha⟩
        · rcases ih hr it2 h2 with ⟨j, it, hin, hf⟩
          exact ⟨j, it, by simp [hin], hf⟩

end CorrectionLemmas

section PhaseLemmas

theorem discWrong_false_discOK {it : Item} (h : discWrong it = false) : discOK it := by
  intro d hd
  unfold discWrong at h
  rw [hd] at h
  simp at h
  simpa using h

theorem totWrong_false_totOK {it : Item} (h : totWrong it = false) : totOK it := by
  unfold totWrong at h
  simpa [totOK] using h

/-- Values accepted by `is_final_price_correct` over the
`correct_discounted_items` props satisfy the discount invariant after
write-back. -/
theorem applyValues_discProps {it : Item} {f : String → ℚ}
    (hsat : is_final_price_correct ([] ++ discProps.map (fun p => (p, f p))) = true) :
    discOK (applyValues it ([] ++ discProps.map (fun p => (p, f p)))) := by
  intro d hd
  simp only [discProps, List.map, List.nil_append] at hsat hd ⊢
  simp [is_final_price_correct, propGet, valLookup, List.find?] at hsat
  simp [applyValues, valLookup, List.find?] at hd ⊢
  rw [← hd]
  exact hsat.symm

/-- The values accepted in `correct_wrong_items` for a non-discounted row
(`final_price` set to the new total price) satisfy both invariants. -/
theorem applyValues_nondisc {it : Item} {f : String → ℚ}
    (hnd : it.total_discount = none)
    (hsat : is_total_price_correct ([] ++ totProps.map (fun p => (p, f p))) = true) :
    totOK (applyValues it (([] ++ totProps.map (fun p => (p, f p)))
        ++ [("final_price", propGet ([] ++ totProps.map (fun p => (p, f p))) "total_price")]))
      ∧ discOK (applyValues it (([] ++ totProps.map (fun p => (p, f p)))
        ++ [("final_price", propGet ([] ++ totProps.map (fun p => (p, f p))) "total_price")])) := by
  simp only [totProps, List.map, List.nil_append] at hsat ⊢
  simp [is_total_price_correct, propGet, valLookup, List.find?] at hsat
  constructor
  · simp [totOK, applyValues, valLookup, propGet, List.find?]
    exact hsat.symm
  · intro d hd
    simp [applyValues, valLookup, propGet, List.find?, hnd] at hd

/-- The values accepted in `correct_wrong_items` for a discounted row
whose old discount and final price still pass the final-price check. -/
theorem applyValues_discCheckTrue {it : Item} {f : String → ℚ} {d0 : ℚ}
    (hd0 : it.total_discount = some d0)
    (hsat : is_total_price_correct ([] ++ totProps.map (fun p => (p, f p))) = true)
    (hfp : is_final_price_correct
        [("total_price", propGet ([] ++ totProps.map (fun p => (p, f p))) "total_price"),
         ("total_discount", it.total_discount.getD 0),
         ("final_price", it.final_price)] = true) :
    totOK (applyValues it ([] ++ totProps.map (fun p => (p, f p))))
      ∧ discOK (applyValues it ([] ++ totProps.map (fun p => (p, f p)))) := by
  simp only [totProps, List.map, List.nil_append] at hsat hfp ⊢
  simp [is_total_price_correct, propGet, valLookup, List.find?] at hsat
  simp [is_final_price_correct, propGet, valLookup, List.find?, hd0] at hfp
  constructor
  · simp [totOK, applyValues, valLookup, List.find?]
    exact hsat.symm
  · intro d hd
    simp [applyValues, valLookup, List.find?, hd0] at hd
    simp [applyValues, valLookup, List.find?, ← hd]
    exact hfp.symm

/-- The values accepted in `correct_wrong_items` for a discounted row
that needed fresh discount/final-price values on top of the new total
price (`values.update(disc_values)`). -/
theorem applyValues_discCheckFalse {it : Item} {f g : String → ℚ}
    (hsat : is_total_price_correct ([] ++ totProps.map (fun p => (p, f p))) = true)
    (hsat2 : is_final_price_correct
        ([("total_price", propGet ([] ++ totProps.map (fun p => (p, f p))) "total_price")]
          ++ finProps.map (fun p => (p, g p))) = true) :
    totOK (applyValues it (pyDictUpdate ([] ++ totProps.map (fun p => (p, f p)))
        ([("total_price", propGet ([] ++ totProps.map (fun p => (p, f p))) "total_price")]
          ++ finProps.map (fun p => (p, g p)))))
      ∧ discOK (applyValues it (pyDictUpdate ([] ++ totProps.map (fun p => (p, f p)))
        ([("total_price", propGet ([] ++ totProps.map (fun p => (p, f p))) "total_price")]
          ++ finProps.map (fun p => (p, g p))))) := by
  simp only [totProps, finProps, List.map, List.nil_append] at hsat hsat2 ⊢
  simp [is_total_price_correct, propGet, valLookup, List.find?] at hsat
  simp [is_final_price_correct, propGet, valLookup, List.find?] at hsat2
  constructor
  · simp [totOK, applyValues, pyDictUpdate, valLookup, propGet, List.find?]
    exact hsat.symm
  · intro d hd
    simp [applyValues, pyDictUpdate, valLookup, propGet, List.find?] at hd
    simp [applyValues, pyDictUpdate, valLookup, propGet, List.find?, ← hd]
    exact hsat2.symm

/-- After `correct_discounted_items` succeeds, every row satisfies the
discount invariant. -/
theorem correct_discounted_items_post {rounds : Nat → List (String → Option ℚ)}
    {items items2 : List Item}
    (h : correct_discounted_items rounds items = some items2) :
    ∀ it2 ∈ items2, discOK it2 := by
  intro it2 hmem
  unfold correct_discounted_items at h
  by_cases hemp : (items.filter discWrong).isEmpty = true
  · rw [if_pos hemp] at h
    cases h
    have hall : ∀ it ∈ items, discWrong it = false := by
      intro it hit
      by_contra hw
      have hw' : discWrong it = true := by revert hw; cases discWrong it <;> simp
      have hin : it ∈ items.filter discWrong := List.mem_filter.mpr ⟨hit, hw'⟩
      rw [List.isEmpty_iff] at hemp
      simp [hemp] at hin
    exact discWrong_false_discOK (hall it2 hmem)
  · rw [if_neg hemp] at h
    rcases correctRows_mem h it2 hmem with ⟨j, it, hin, hf⟩
    by_cases hw : discWrong it = true
    · rw [if_pos hw] at hf
      cases hg : get_new_values it is_final_price_correct discProps [] (rounds j) with
      | none => rw [hg] at hf; cases hf
      | some vs =>
        rw [hg] at hf
        cases hf
        rcases get_new_values_sat hg with ⟨hsat, f, hvs⟩
        subst hvs
        exact applyValues_discProps hsat
    · rw [if_neg hw] at hf
      have hw' : discWrong it = false := by revert hw; cases discWrong it <;> simp
      cases hf
      exact discWrong_false_discOK hw'

/-- After `correct_wrong_items` succeeds, every row satisfies the
total-price invariant, and the discount invariant is preserved. -/
theorem correct_wrong_items_post {r1 r2 : Nat → List (String → Option ℚ)}
    {items items2 : List Item}
    (hdisc : ∀ it ∈ items, discOK it)
    (h : correct_wrong_items r1 r2 items = some items2) :
    ∀ it2 ∈ items2, totOK it2 ∧ discOK it2 := by
  intro it2 hmem
  unfold correct_wrong_items at h
  by_cases hemp : (items.filter totWrong).isEmpty = true
  · rw [if_pos hemp] at h
    cases h
    have hall : ∀ it ∈ items, totWrong it = false := by
      intro it hit
      by_contra hw
      have hw' : totWrong it = true := by revert hw; cases totWrong it <;> simp
      have hin : it ∈ items.filter totWrong := List.mem_filter.mpr ⟨hit, hw'⟩
      rw [List.isEmpty_iff] at hemp
      simp [hemp] at hin
    exact ⟨totWrong_false_totOK (hall it2 hmem), hdisc it2 hmem⟩
  · rw [if_neg hemp] at h
    rcases correctRows_mem h it2 hmem with ⟨j, it, hin, hf⟩
    by_cases hw : totWrong it = true
    · rw [if_pos hw] at hf
      cases hg : get_new_values it is_total_price_correct totProps [] (r1 j) with
      | none => rw [hg] at hf; cases hf
      | some vs =>
        rcases get_new_values_sat hg with ⟨hsat, f, hvs⟩
        subst hvs
        simp only [hg] at hf
        by_cases hd : it.total_discount.isSome = true
        · rw [if_pos hd] at hf
          rcases Option.isSome_iff_exists.mp hd with ⟨d0, hd0⟩
          by_cases hfp : is_final_price_correct
              [("total_price", propGet ([] ++ totProps.map (fun p => (p, f p))) "total_price"),
               ("total_discount", it.total_discount.getD 0),
               ("final_price", it.final_price)] = true
          · rw [if_pos hfp] at hf
            cases hf
            exact applyValues_discCheckTrue hd0 hsat hfp
          · rw [if_neg hfp] at hf
            cases hg2 : get_new_values it is_final_price_correct finProps
                [("total_price", propGet ([] ++ totProps.map (fun p => (p, f p))) "total_price")]
                (r2 j) with
            | none => rw [hg2] at hf; cases hf
            | some dvs =>
              rcases get_new_values_sat hg2 with ⟨hsat2, g, hdvs⟩
              subst hdvs
              simp only [hg2] at hf
              cases hf
              exact applyValues_discCheckFalse hsat hsat2
        · rw [if_neg hd] at hf
          cases hf
          have hnd : it.total_discount = none := Option.not_isSome_iff_eq_none.mp hd
          exact applyValues_nondisc hnd hsat
    · rw [if_neg hw] at hf
      have hw' : totWrong it = false := by revert hw; cases totWrong it <;> simp
      have hd' := hdisc it hin
      cases hf
      exact ⟨totWrong_false_totOK hw', hd'⟩

/-- The `RECONCILED` exit of the validation loop returns the item rows it
was entered with, and a total sum whose grand-total difference with them
is zero. -/
theorem reconcileLoop_reconciled :
    ∀ {fuel : Nat} {items : List Item} {total : ℚ} {answers : List LoopAnswer}
      {items2 : List Item} {total2 : ℚ},
      reconcileLoop fuel items total answers = some (.ret .reconciled items2 total2) →
      items2 = items ∧ get_total_sum_diff total2 items2 = 0 := by
  intro fuel
  induction fuel with
  | zero => intro items total answers items2 total2 h; cases h
  | succ n ih =>
    intro items total answers items2 total2 h
    unfold reconcileLoop at h
    by_cases hz : get_total_sum_diff total items == 0
    · rw [if_pos hz] at h
      cases h
      exact ⟨rfl, by simpa using hz⟩
    · rw [if_neg hz] at h
      cases answers with
      | nil => cases h
      | cons a rest =>
        cases a with
        | totalCorrectAdd first =>
          simp only at h
          cases hni : get_new_item first.name first.qty first.unit_price first.discount with
          | error e => rw [hni] at h; cases h
          | ok d => rw [hni] at h; cases h
        | totalCorrectNoAdd => cases h
        | totalWrong t => exact ih h

end PhaseLemmas

/-! ## The claims -/

/-- C2: the spec demands that a discount marker on the first non-empty
line, or on the last non-empty line, make segmentation fail with a
`MalformedDiscountBlock` error rather than an index-out-of-range error.
The code has no `MalformedDiscountBlock` error at all (hence none in the
embedding's `PyErr`): on both inputs `get_split_text` raises a plain
`IndexError` (`text_split_new[-1]` on the empty result list, and
`text_split[i + 1]` past the end). -/
theorem claim2_segmentation_index_error :
    get_split_text "OPUST -2.00\n8.00".toList = .error .indexError
      ∧ get_split_text "A\nOPUST -2.00".toList = .error .indexError := by
  exact ⟨rfl, rfl⟩

/-- C3: normalization is idempotent in both copies of
`replace_invalid_chars`, characters outside the substitution table pass
through unchanged (position by position), and the function is total
(it is a plain Lean function, so it never fails). -/
theorem claim3_normalization_idempotent (t : Str) :
    replace_invalid_chars (replace_invalid_chars t) = replace_invalid_chars t
      ∧ replace_invalid_chars_det (replace_invalid_chars_det t) = replace_invalid_chars_det t
      ∧ (∀ i c, t.get? i = some c → c ∉ procInvalid →
          (replace_invalid_chars t).get? i = some c)
      ∧ (∀ i c, t.get? i = some c → c ∉ detInvalid →
          (replace_invalid_chars_det t).get? i = some c) := by
  refine ⟨?_, ?_, ?_, ?_⟩
  · rw [replace_invalid_chars_eq_map, replace_invalid_chars_eq_map, List.map_map]
    exact List.map_congr_left (fun c _ => procFix_procFix c)
  · rw [replace_invalid_chars_det_eq_map, replace_invalid_chars_det_eq_map, List.map_map]
    exact List.map_congr_left (fun c _ => detFix_detFix c)
  · intro i c hc hni
    rw [replace_invalid_chars_eq_map, List.get?_map, hc]
    simp [procFix_not_invalid c hni]
  · intro i c hc hni
    rw [replace_invalid_chars_det_eq_map, List.get?_map, hc]
    simp [detFix_not_invalid c hni]

/-- C3 witness: the theorem instantiated on a concrete string. -/
theorem claim3_witness :
    replace_invalid_chars (replace_invalid_chars "a(?~".toList)
        = replace_invalid_chars "a(?~".toList
      ∧ (replace_invalid_chars "a(?~".toList).get? 0 = some 'a' :=
  ⟨(claim3_normalization_idempotent "a(?~".toList).1,
   (claim3_normalization_idempotent "a(?~".toList).2.2.1 0 'a' (by decide) (by decide)⟩

/-- C4 counterexample: two discount markers attaching to the same
preceding group produce a 5-element group, refuting "every group has
exactly 1 or 3 elements". -/
theorem claim4_counterexample :
    get_split_text "A\nOPUST 1\nB\nOPUST 2\nC".toList
        = .ok [["A".toList, "OPUST 1".toList, "B".toList,
                "OPUST 2".toList, "C".toList]]
      ∧ ¬ ((["A".toList, "OPUST 1".toList, "B".toList, "OPUST 2".toList,
            "C".toList] : List Str).length = 1
          ∨ (["A".toList, "OPUST 1".toList, "B".toList, "OPUST 2".toList,
            "C".toList] : List Str).length = 3) := by
  exact ⟨rfl, by decide⟩

/-- C4 (amended): every group an (error-free) segmentation returns has
odd length — 1 for an ordinary row, 1 + 2k after k discount-marker pairs
are appended; exactly 1 or 3 only when no two markers attach to the same
group. -/
theorem claim4_groups_odd (text : Str) (gs : List (List Str))
    (h : get_split_text text = .ok gs) :
    ∀ g ∈ gs, g.length % 2 = 1 := by
  unfold get_split_text at h
  exact splitLoop_odd ((pySplit '\n' text).filter (fun l => l ≠ [])).length _
    le_rfl [] gs (by simp) h

/-- C4 witness: the amended theorem instantiated on a concrete text. -/
theorem claim4_witness :
    ("A".toList ++ "OPUST 1".toList ++ "B".toList).length % 2 = 1
      ∧ (["A".toList, "OPUST 1".toList, "B".toList] : List Str).length % 2 = 1 :=
  ⟨by decide,
   claim4_groups_odd "A\nOPUST 1\nB".toList
     [["A".toList, "OPUST 1".toList, "B".toList]] (by rfl)
     ["A".toList, "OPUST 1".toList, "B".toList] (by decide)⟩

/-- C5 counterexample: on the spec's own input the item row
`"Milk 1 x 10.00 10.00"` does not match the item grammar (the grammar
requires a 1-2 character separator column between the name and the
quantity, and the unit price immediately after the optional `x`), so
`get_item` yields `None` and `get_items` yields no item at all — not the
claimed `Milk` item. -/
theorem claim5_counterexample :
    get_item "Milk 1 x 10.00 10.00".toList false corrZero = .ok none
      ∧ get_items "Milk 1 x 10.00 10.00\nOPUST -2.00\n8.00".toList false corrZero
          = .ok []
      ∧ (.ok [] : Except PyErr (List RawItem)) ≠ .ok [({
          name := "Milk".toList, qty := .num 1, unit_price := .num 10,
          total_price := .num 10, total_discount := .num 2,
          final_price := .num 8 } : RawItem)] := by
  exact ⟨rfl, rfl, by simp⟩

/-- C5 (amended): segmentation of the spec's example does yield exactly
one 3-element group, but item extraction yields the empty list (for any
correction mode and oracle), because the item row fails the grammar. -/
theorem claim5_segmentation_yes_parsing_no :
    get_split_text "Milk 1 x 10.00 10.00\nOPUST -2.00\n8.00".toList
        = .ok [["Milk 1 x 10.00 10.00".toList, "OPUST -2.00".toList,
                "8.00".toList]]
      ∧ ∀ dc corr,
          get_items "Milk 1 x 10.00 10.00\nOPUST -2.00\n8.00".toList dc corr
            = .ok [] := by
  exact ⟨rfl, fun dc corr => rfl⟩

/-- C6: in non-interactive mode a numeric substring that `float` rejects
becomes the sentinel `False` without any prompt (the result does not
depend on the correction oracle), and a row that parses into an item is
always included in the extracted item list, sentinel fields and all. -/
theorem claim6_coercion_sentinel_kept :
    (∀ s ctx corr, pyFloat s = none →
        string_to_float s ctx false corr = .bool false)
      ∧ (∀ row dc corr it, hasOpust row = false → row ≠ [] →
          get_item row dc corr = .ok (some it) →
          itemsFromRows [row] dc corr = .ok [it]) := by
  constructor
  · intro s ctx corr h
    simp [string_to_float, h]
  · intro row dc corr it hop hne hgi
    unfold itemsFromRows
    have hfil : ([row].filter (fun l => l ≠ [])) = [row] := by simp [hne]
    rw [hfil, splitLoop_cons_noopust row [] [] hop]
    show itemsLoop dc corr [[row]] = .ok [it]
    conv_lhs => rw [itemsLoop.eq_def]
    simp only [hgi]
    rfl

/-- C6 witness: the coercion failure `"t.99"` (an OCR-damaged unit price)
yields the sentinel, and the item carrying it is still extracted. -/
theorem claim6_witness :
    string_to_float "t.99".toList "Milk D 1 xt,99 2,99".toList false corrZero
        = .bool false
      ∧ itemsFromRows ["Milk D 1 xt,99 2,99".toList] false corrZero
          = .ok [{ name := "Milk".toList, qty := .num 1,
                   unit_price := .bool false, total_price := .num (299/100),
                   total_discount := .num 0, final_price := .num (299/100) }] :=
  ⟨claim6_coercion_sentinel_kept.1 "t.99".toList "Milk D 1 xt,99 2,99".toList
      corrZero (by rfl),
   claim6_coercion_sentinel_kept.2 "Milk D 1 xt,99 2,99".toList false corrZero
      _ (by rfl) (by simp) (by with_unfolding_all rfl)⟩

/-- C7: a row that does not match the item grammar makes `get_item`
return `None` (never an exception), and prepending such a row to any
input whose extraction succeeds leaves the extracted item list
unchanged — the bad row is silently skipped and every other row is still
processed. -/
theorem claim7_unmatched_row_skipped (dc : Bool) (corr : Str → Str → ℚ)
    (bad : Str) (rows : List Str) (l : List RawItem)
    (hmatch : reMatch itemRe bad = none)
    (hop : hasOpust bad = false) (hne : bad ≠ [])
    (hok : itemsFromRows rows dc corr = .ok l) :
    get_item bad dc corr = .ok none
      ∧ itemsFromRows (bad :: rows) dc corr = .ok l := by
  have hgi : get_item bad dc corr = .ok none := by
    unfold get_item
    rw [hmatch]
  refine ⟨hgi, ?_⟩
  unfold itemsFromRows at hok ⊢
  cases hsp : splitLoop (rows.filter (fun r => r ≠ [])) [] with
  | error e => rw [hsp] at hok; cases hok
  | ok gs =>
    rw [hsp] at hok
    have hfil : ((bad :: rows).filter (fun r => r ≠ []))
        = bad :: rows.filter (fun r => r ≠ []) := by
      simp [hne]
    rw [hfil, splitLoop_cons_noopust bad _ [] hop]
    have h2 := splitLoop_prepend (rows.filter (fun r => r ≠ [])).length _
      le_rfl [[bad]] [] gs hsp
    rw [List.append_nil] at h2
    rw [show ([] ++ [[bad]] : List (List Str)) = [[bad]] from rfl, h2]
    show itemsLoop dc corr ([bad] :: gs) = .ok l
    conv_lhs => rw [itemsLoop.eq_def]
    simp only [hgi]
    exact hok

/-- C7 witness: a non-matching row prepended to a receipt with one valid
item row. -/
theorem claim7_witness :
    get_item "junk".toList false corrZero = .ok none
      ∧ itemsFromRows ["junk".toList, "Milk D 1 x2,99 2,99".toList] false corrZero
          = .ok [{ name := "Milk".toList, qty := .num 1,
                   unit_price := .num (299/100), total_price := .num (299/100),
                   total_discount := .num 0, final_price := .num (299/100) }] :=
  claim7_unmatched_row_skipped false corrZero "junk".toList
    ["Milk D 1 x2,99 2,99".toList] _ (by rfl) (by rfl) (by simp)
    (by with_unfolding_all rfl)

/-- C8: the grand-total difference the code computes,
`round(abs(extracted - calculated), 2)`, equals the spec's
`abs(round(sum(final_price) - total_sum, 2))` — `round` half-even is an
odd function, so it commutes with `abs`. -/
theorem claim8_grand_total_diff (total_sum : ℚ) (items : List Item) :
    get_total_sum_diff total_sum items
      = |roundTo2 ((items.map (fun it => it.final_price)).sum - total_sum)| := by
  unfold get_total_sum_diff
  rw [abs_sub_comm, roundTo2_abs]

/-- C9: `get_new_item` never returns an item: after storing the discount
under the key `total_discount` it reads `item['discount']`, a key that
does not exist, so every call raises `KeyError('discount')` — for any
operator inputs, including a zero discount. -/
theorem claim9_get_new_item_always_keyerror (name : Str)
    (qty unit_price discount : ℚ) :
    get_new_item name qty unit_price discount
      = .error (.keyError "discount") := by
  rfl

/-- C10: the missing-property selection `(df == False)` flags any numeric
cell equal to `0.0` (Python's `0.0 == False` is `True`), so an item with
a legitimately zero quantity or price is selected as having missing
properties and routed through the interactive replacement of
`correct_missing_properties`, even though no coercion failure occurred. -/
theorem claim10_zero_selected_as_missing (it : Item)
    (h : it.qty = 0 ∨ it.unit_price = 0 ∨ it.total_price = 0) :
    itemIsMissing it = true
      ∧ (∀ items, it ∈ items → it ∈ get_missing_properties items)
      ∧ (∀ ans : Nat → String → ℚ,
          correct_missing_properties ans [it] = [fillMissing (ans 0) it]) := by
  have hm : itemIsMissing it = true := by
    unfold itemIsMissing
    rcases h with h | h | h <;> simp [h]
  refine ⟨hm, ?_, ?_⟩
  · intro items hmem
    exact List.mem_filter.mpr ⟨hmem, hm⟩
  · intro ans
    unfold correct_missing_properties fillRows
    rw [hm]
    simp
    rfl

/-- C10 witness: an item whose quantity is genuinely `0`. -/
theorem claim10_witness :
    itemIsMissing zeroQtyItem = true
      ∧ zeroQtyItem ∈ get_missing_properties [zeroQtyItem] :=
  ⟨(claim10_zero_selected_as_missing zeroQtyItem (Or.inl rfl)).1,
   (claim10_zero_selected_as_missing zeroQtyItem (Or.inl rfl)).2.1 _ (by simp)⟩

/-- C1 counterexample: a record with one consistent item (final price
`10.00`) and extracted total `10.002` exits the loop through the
`RECONCILED` branch (`round(abs(10.002 - 10), 2) == 0`), yet
`round(sum(final_price), 2) == total_sum` is false — the zero-difference
test tolerates sub-cent discrepancies that the claimed equation does
not. -/
theorem claim1_counterexample :
    process_content 1 oracle0 [cexItem] (5001/500)
        = some (.ret .reconciled [cexItem] (5001/500))
      ∧ roundTo2 (([cexItem].map (fun it => it.final_price)).sum) ≠ 5001/500 := by
  exact ⟨by with_unfolding_all rfl, by with_unfolding_all decide⟩

/-- C1 (amended): every record returned through the `RECONCILED` exit of
`process_content` satisfies, for every item,
`total_price = round(qty * unit_price, 2)` and, if discounted,
`final_price = round(total_price - total_discount, 2)`; and its
grand-total difference `round(abs(total_sum - sum(final_price)), 2)` is
zero (the loop's actual test — rather than the claimed
`round(sum(final_price), 2) == total_sum`, which the counterexample
refutes). -/
theorem claim1_reconciled_record_invariants
    (fuel : Nat) (o : Oracles) (items0 : List Item) (total0 : ℚ)
    (items : List Item) (total_sum : ℚ)
    (h : process_content fuel o items0 total0
        = some (.ret .reconciled items total_sum)) :
    (∀ it ∈ items, it.total_price = roundTo2 (it.qty * it.unit_price))
      ∧ (∀ it ∈ items, ∀ d, it.total_discount = some d →
          it.final_price = roundTo2 (it.total_price - d))
      ∧ get_total_sum_diff total_sum items = 0 := by
  simp only [process_content] at h
  cases h2 : correct_discounted_items o.disc
      (correct_missing_properties o.missing items0) with
  | none => rw [h2] at h; cases h
  | some itemsB =>
    simp only [h2] at h
    cases h3 : correct_wrong_items o.wrong o.wrongDisc itemsB with
    | none => rw [h3] at h; cases h
    | some itemsC =>
      simp only [h3] at h
      obtain ⟨heq, hz⟩ := reconcileLoop_reconciled h
      subst heq
      have hpost := correct_wrong_items_post
        (correct_discounted_items_post h2) h3
      exact ⟨fun it hm => (hpost it hm).1, fun it hm => (hpost it hm).2, hz⟩

/-- C1 witness: the amended theorem instantiated on a concrete
reconciled run. -/
theorem claim1_witness :
    (∀ it ∈ [witItem], it.total_price = roundTo2 (it.qty * it.unit_price))
      ∧ get_total_sum_diff 6 [witItem] = 0 :=
  ⟨(claim1_reconciled_record_invariants 1 oracle0 [witItem] 6 [witItem] 6
      (by with_unfolding_all rfl)).1,
   (claim1_reconciled_record_invariants 1 oracle0 [witItem] 6 [witItem] 6
      (by with_unfolding_all rfl)).2.2⟩
